import Mathlib

/-!
Verification of the libp2p-bitswap wire-protocol codec layer.

Shallow embedding of:
  * `src/token.rs` — the token codec (`Token::write_to`, `Token::read_bytes`,
    `Token::to_vec`, `Token::from_bytes`);
  * `src/protocol.rs` — the native length-framed binary codec
    (`BitswapRequest`/`BitswapResponse` encode/decode, size ceilings,
    frame-level reads of `BitswapCodec`);
  * `src/compat/message.rs` — the protobuf-compatibility codec
    (`CompatMessage::to_bytes`/`from_bytes`, `push_token`, `extract_tokens`).

Bytes are modelled as `Nat` (a real wire byte is `< 256`; every encoder below
only produces such values).  Machine integers (`u64`, `u32`, `i32`, `usize`)
are modelled as `Nat`/`Int` with explicit wrap-arounds where the Rust code can
overflow.  Fallible Rust code returning `io::Result` is modelled with
`Except Err`.  `BitswapResponse::from_bytes` indexes `bytes[0]` without an
emptiness check, hence it is modelled with an `Option` layer whose `none`
stands for the out-of-bounds panic.

The content-addressed identifier (`Cid`, external `libipld` collaborator), the
prefix adapter (`src/compat/prefix.rs`, not part of the provided sources) and
the generated protobuf schema are modelled from the spec where noted.
-/

/-- Error taxonomy shared by both codecs (spec section 7).  `unexpectedEof`
models `io::ErrorKind::UnexpectedEof` raised by `read_exact`/varint reads on
truncated input, `varintErr` the non-io `unsigned_varint` decode errors
(overflow / not-minimal), `invalidInput` the `ErrorKind::InvalidInput`
conversions, `invalidData` the bare `ErrorKind::InvalidData` of a dangling
token index, `otherErr` the `ErrorKind::Other` wrapping of identifier parse
failures. -/
inductive Err where
  | unexpectedEof
  | varintErr
  | invalidInput
  | invalidData
  | unknownMessageType (b : Nat)
  | messageTooLarge (n : Nat)
  | otherErr
deriving DecidableEq

deriving instance DecidableEq for Except

/-- One step list of the `unsigned_varint` encoder: emit the low 7 bits with a
continuation flag while the value needs more than 7 bits.  The fuel of 10
covers every `u64` (`⌈64/7⌉ = 10` bytes); the fuel-exhausted fallback is
unreachable for any value a Rust `u64` can hold. -/
def writeVarGo : Nat → Nat → List Nat
  | 0, n => [n % 128]
  | fuel + 1, n => if n < 128 then [n] else (n % 128 + 128) :: writeVarGo fuel (n / 128)

/-- `unsigned_varint::encode::u64` (and `::u32`, which runs the same loop) on a
value `n`. -/
def writeVar (n : Nat) : List Nat := writeVarGo 10 n

/-- The `unsigned_varint` decoder loop, parameterised by the bit width `W` of
the target integer and the maximal byte count `L` (`10` for `u64`, `5` for
`u32`).  `i` is the current byte index, `acc` the accumulated value; the
`% 2 ^ W` mirrors the silent truncation of the Rust shift on the last byte.
Decoding fails on exhausted input (`unexpectedEof`), on a continuation bit in
the last permitted byte (overflow) and on a trailing `0x00` byte (non-minimal
encoding). -/
def readVarAux (W L : Nat) : List Nat → Nat → Nat → Except Err (Nat × List Nat)
  | [], _, _ => .error .unexpectedEof
  | b :: rest, i, acc =>
    let acc' := (acc + b % 128 * 2 ^ (7 * i)) % 2 ^ W
    if b < 128 then
      if i ≠ 0 ∧ b = 0 then .error .varintErr else .ok (acc', rest)
    else if i = L - 1 then .error .varintErr
    else readVarAux W L rest (i + 1) acc'

/-- `unsigned_varint::io::read_u64` reading from a byte slice. -/
def readU64 (bytes : List Nat) : Except Err (Nat × List Nat) :=
  readVarAux 64 10 bytes 0 0

/-- `unsigned_varint::aio::read_u32` reading from a byte stream. -/
def readU32 (bytes : List Nat) : Except Err (Nat × List Nat) :=
  readVarAux 32 5 bytes 0 0

/-- `Token(codec, value)` from `src/token.rs`: `pub struct Token(pub u64, pub Vec<u8>)`. -/
structure Token where
  codec : Nat
  value : List Nat
deriving DecidableEq

/-- The pure byte image a `Token::write_to` call appends to its writer:
varint(codec) ‖ varint(len value) ‖ value.  (The `ErrorKind::InvalidInput`
branch of `write_to` is the `usize → u64` conversion of the length, which is
infallible on a 64-bit platform, so the model is total.) -/
def tokenBytes (t : Token) : List Nat :=
  writeVar t.codec ++ writeVar t.value.length ++ t.value

/-- `Token::write_to`: the `io::Write` instance of `Vec<u8>` appends, so the
writer state `w` is threaded explicitly. -/
def Token.write_to (t : Token) (w : List Nat) : List Nat :=
  w ++ writeVar t.codec ++ writeVar t.value.length ++ t.value

/-- `Token::read_bytes`: varint multicodec, varint length, then exactly that
many raw bytes (`read_exact` fails with `UnexpectedEof` when fewer remain; the
`u64 → usize` conversion of the length is infallible on 64-bit). -/
def Token.read_bytes (input : List Nat) : Except Err (Token × List Nat) :=
  match readU64 input with
  | .error e => .error e
  | .ok (codec, r1) =>
    match readU64 r1 with
    | .error e => .error e
    | .ok (len, r2) =>
      if r2.length < len then .error .unexpectedEof
      else .ok (⟨codec, r2.take len⟩, r2.drop len)

/-- `Token::to_vec`: builds `vec![0; 8 + 8 + self.1.len()]` — a vector of that
many zero BYTES, not merely capacity — and then `write_to`s into it, which
appends. -/
def Token.to_vec (t : Token) : List Nat :=
  t.write_to (List.replicate (8 + 8 + t.value.length) 0)

/-- `Token::from_bytes` delegates to `read_bytes` and drops the remainder. -/
def Token.from_bytes (input : List Nat) : Except Err Token :=
  (Token.read_bytes input).map Prod.fst

/-- Modelled from the spec: the content-addressed identifier (`libipld::cid::Cid`,
an external collaborator) with its canonical byte serialization — four
unsigned varints (version, codec, hash-algorithm, hash-length) followed by the
digest, matching the ceiling rationale of `src/protocol.rs`
(`MAX_CID_SIZE = 4 * 10 + 64`). -/
structure Cid where
  version : Nat
  codec : Nat
  hashAlgo : Nat
  digest : List Nat
deriving DecidableEq

/-- Modelled from the spec: `Cid::write_bytes`, the canonical serialization. -/
def Cid.write_bytes (c : Cid) : List Nat :=
  writeVar c.version ++ writeVar c.codec ++ writeVar c.hashAlgo ++
    writeVar c.digest.length ++ c.digest

/-- Modelled from the spec: `Cid::read_bytes`, parsing the canonical
serialization from the head of a stream and leaving the remainder. -/
def Cid.read_bytes (input : List Nat) : Except Err (Cid × List Nat) :=
  match readU64 input with
  | .error e => .error e
  | .ok (v, r1) =>
    match readU64 r1 with
    | .error e => .error e
    | .ok (cdc, r2) =>
      match readU64 r2 with
      | .error e => .error e
      | .ok (alg, r3) =>
        match readU64 r3 with
        | .error e => .error e
        | .ok (len, r4) =>
          if r4.length < len then .error .unexpectedEof
          else .ok (⟨v, cdc, alg, r4.take len⟩, r4.drop len)

/-- Modelled from the spec: `Cid::try_from(&[u8])`, parsing an identifier from
a standalone byte string. -/
def Cid.tryFrom (bytes : List Nat) : Except Err Cid :=
  (Cid.read_bytes bytes).map Prod.fst

/-- `RequestType` from `src/protocol.rs`. -/
inductive RequestType where
  | Have
  | Block
deriving DecidableEq

/-- `BitswapRequest` from `src/protocol.rs`. -/
structure BitswapRequest where
  ty : RequestType
  cid : Cid
  tokens : List Token
deriving DecidableEq

/-- `BitswapResponse` from `src/protocol.rs`. -/
inductive BitswapResponse where
  | Have (haveIt : Bool)
  | Block (data : List Nat)
deriving DecidableEq

/-- The concatenated `Token::write_to` encodings of a token list (the
`for token in tokens { token.write_to(w) }` loop). -/
def tokensBytes : List Token → List Nat
  | [] => []
  | t :: ts => tokenBytes t ++ tokensBytes ts

/-- `BitswapRequest::write_to` into a fresh buffer: one tag byte (`0` = Have,
`1` = Block), the identifier bytes, a varint token count, then the token
encodings.  (The `ErrorKind::InvalidInput` branch is the infallible
`usize → u64` conversion of the count on 64-bit platforms.) -/
def BitswapRequest.write_to (r : BitswapRequest) : List Nat :=
  (match r.ty with | .Have => 0 | .Block => 1) ::
    (r.cid.write_bytes ++ writeVar r.tokens.length ++ tokensBytes r.tokens)

/-- The `for _ in 0..tokens_len { tokens.push(Token::read_bytes(&mut r)?) }`
loop of `BitswapRequest::read_bytes`. -/
def readTokens : Nat → List Nat → Except Err (List Token × List Nat)
  | 0, input => .ok ([], input)
  | n + 1, input =>
    match Token.read_bytes input with
    | .error e => .error e
    | .ok (t, rest) =>
      match readTokens n rest with
      | .error e => .error e
      | .ok (ts, rest') => .ok (t :: ts, rest')

/-- The body of `BitswapRequest::read_bytes` after the tag byte. -/
def readRequestBody (ty : RequestType) (rest : List Nat) : Except Err BitswapRequest :=
  match Cid.read_bytes rest with
  | .error e => .error e
  | .ok (cid, r1) =>
    match readU64 r1 with
    | .error e => .error e
    | .ok (n, r2) =>
      match readTokens n r2 with
      | .error e => .error e
      | .ok (tokens, _) => .ok ⟨ty, cid, tokens⟩

/-- `BitswapRequest::read_bytes` / `from_bytes`: a `read_exact` of the tag byte
(`UnexpectedEof` on empty input), tag dispatch rejecting anything but `0`/`1`
with `UnknownMessageType`, then identifier, token count and tokens. -/
def BitswapRequest.from_bytes (input : List Nat) : Except Err BitswapRequest :=
  match input with
  | [] => .error .unexpectedEof
  | b :: rest =>
    if b = 0 then readRequestBody .Have rest
    else if b = 1 then readRequestBody .Block rest
    else .error (.unknownMessageType b)

/-- `BitswapResponse::write_to` into a fresh buffer: `Have(true)` is `[0]`,
`Have(false)` is `[2]`, `Block(data)` is the tag `1` followed by the data. -/
def BitswapResponse.write_to : BitswapResponse → List Nat
  | .Have true => [0]
  | .Have false => [2]
  | .Block data => 1 :: data

/-- `BitswapResponse::from_bytes` starts with `bytes[0]`, which PANICS
(index out of bounds) on an empty slice: the panic is modelled by the `none`
result.  On nonempty input, tag `0` is `Have(true)`, `2` is `Have(false)`,
`1` is `Block` of all remaining bytes, anything else `UnknownMessageType`. -/
def BitswapResponse.from_bytes (input : List Nat) : Option (Except Err BitswapResponse) :=
  match input with
  | [] => none
  | b :: rest =>
    if b = 0 then some (.ok (.Have true))
    else if b = 2 then some (.ok (.Have false))
    else if b = 1 then some (.ok (.Block rest))
    else some (.error (.unknownMessageType b))

/-- `MAX_CID_SIZE` from `src/protocol.rs` (4 varints of ≤10 bytes + 64-byte digest). -/
def MAX_CID_SIZE : Nat := 4 * 10 + 64

/-- `MAX_TOKEN_SIZE` from `src/protocol.rs` (1 MiB). -/
def MAX_TOKEN_SIZE : Nat := 1024 * 1024

/-- `BitswapCodec::read_request`: read the u32 varint frame length, reject
frames over `MAX_CID_SIZE + MAX_TOKEN_SIZE + 1` with `MessageTooLarge` BEFORE
reading any payload byte, then `read_exact` the payload and decode it. -/
def readRequestFrame (input : List Nat) : Except Err BitswapRequest :=
  match readU32 input with
  | .error e => .error e
  | .ok (msgLen, rest) =>
    if MAX_CID_SIZE + MAX_TOKEN_SIZE + 1 < msgLen then .error (.messageTooLarge msgLen)
    else if rest.length < msgLen then .error .unexpectedEof
    else BitswapRequest.from_bytes (rest.take msgLen)

/-- `BitswapCodec::read_response`: as `read_request` with the
`P::MAX_BLOCK_SIZE + 1` ceiling (the block-store constant is a parameter). -/
def readResponseFrame (maxBlockSize : Nat) (input : List Nat) :
    Option (Except Err BitswapResponse) :=
  match readU32 input with
  | .error e => some (.error e)
  | .ok (msgLen, rest) =>
    if maxBlockSize + 1 < msgLen then some (.error (.messageTooLarge msgLen))
    else if rest.length < msgLen then some (.error .unexpectedEof)
    else BitswapResponse.from_bytes (rest.take msgLen)

/-- `BitswapCodec::write_request`: encode into the cleared buffer, reject an
encoding over the ceiling with `MessageTooLarge`, else emit the u32 varint
length followed by the payload. -/
def writeRequestFrame (req : BitswapRequest) : Except Err (List Nat) :=
  let b := req.write_to
  if MAX_CID_SIZE + MAX_TOKEN_SIZE + 1 < b.length then .error (.messageTooLarge b.length)
  else .ok (writeVar b.length ++ b)

/-- `BitswapCodec::write_response` with the `P::MAX_BLOCK_SIZE + 1` ceiling. -/
def writeResponseFrame (maxBlockSize : Nat) (res : BitswapResponse) : Except Err (List Nat) :=
  let b := res.write_to
  if maxBlockSize + 1 < b.length then .error (.messageTooLarge b.length)
  else .ok (writeVar b.length ++ b)

/-- Modelled from the spec: the identifier `Prefix` of the Identifier Prefix
Adapter (`src/compat/prefix.rs`, not among the provided sources) — version,
codec, hash-algorithm and hash-length of an identifier. -/
structure CidPfx where
  version : Nat
  codec : Nat
  mhType : Nat
  mhLen : Nat
deriving DecidableEq

/-- Modelled from the spec: `Prefix::from(cid)` — the prefix decomposition of
an identifier. -/
def CidPfx.ofCid (c : Cid) : CidPfx :=
  ⟨c.version, c.codec, c.hashAlgo, c.digest.length⟩

/-- Modelled from the spec: `Prefix::to_bytes` — four unsigned varints. -/
def CidPfx.to_bytes (p : CidPfx) : List Nat :=
  writeVar p.version ++ writeVar p.codec ++ writeVar p.mhType ++ writeVar p.mhLen

/-- Modelled from the spec: `Prefix::new` — parse the four varints back. -/
def CidPfx.new (bytes : List Nat) : Except Err CidPfx :=
  match readU64 bytes with
  | .error e => .error e
  | .ok (v, r1) =>
    match readU64 r1 with
    | .error e => .error e
    | .ok (cdc, r2) =>
      match readU64 r2 with
      | .error e => .error e
      | .ok (alg, r3) =>
        match readU64 r3 with
        | .error e => .error e
        | .ok (len, _) => .ok ⟨v, cdc, alg, len⟩

/-- Modelled from the spec: the digest computation of the external multihash
collaborator used by `Prefix::to_cid` — an unspecified deterministic function
of the hash algorithm, declared length and block data; only its determinism
matters to this layer. -/
def hashDigest (alg len : Nat) (data : List Nat) : List Nat :=
  List.replicate len (data.foldl (fun a b => (a + b) % 256) (alg % 256))

/-- Modelled from the spec: `Prefix::to_cid` — reconstruct an identifier from
the prefix plus the raw block bytes. -/
def CidPfx.to_cid (p : CidPfx) (data : List Nat) : Except Err Cid :=
  .ok ⟨p.version, p.codec, p.mhType, hashDigest p.mhType p.mhLen data⟩

/-- `CompatMessage` from `src/compat/message.rs`. -/
inductive CompatMessage where
  | Request (r : BitswapRequest)
  | Response (cid : Cid) (res : BitswapResponse) (tokens : List Token)
deriving DecidableEq

/-- Modelled from the spec: a want-list entry of the protobuf-compat schema
(block-id bytes, want-type enum as its wire `i32`, send-dont-have, cancel,
priority, token-table indices).  The enum numbering is owned by the `.proto`
definition (not among the provided sources): `WantType::Block = 0`,
`WantType::Have = 1`. -/
structure WantlistEntry where
  block : List Nat
  wantType : Int
  sendDontHave : Bool
  cancel : Bool
  priority : Int
  tokens : List Int
deriving DecidableEq

/-- Modelled from the spec: a block-presence entry (id bytes, presence enum as
its wire `i32` — `Have = 0`, `DontHave = 1` — and token indices). -/
structure BlockPresence where
  cid : List Nat
  type_pb : Int
  tokens : List Int
deriving DecidableEq

/-- Modelled from the spec: a payload entry (prefix bytes, raw block data,
token indices). -/
structure PbBlock where
  pfx : List Nat
  data : List Nat
  tokens : List Int
deriving DecidableEq

/-- Modelled from the spec: the protobuf-compat message — optional want-list,
payload list, block-presence list and the flat shared token table.  The
protobuf wire serialization itself (`quick_protobuf` generated from the
`.proto`, not among the provided sources) is assumed to carry this structure
losslessly, so `CompatMessage::to_bytes`/`from_bytes` are modelled on the
structure directly. -/
structure PbMessage where
  wantlist : Option (List WantlistEntry)
  payload : List PbBlock
  blockPresences : List BlockPresence
  tokens : List (List Nat)
deriving DecidableEq

/-- `Message::default()`. -/
def PbMessage.default : PbMessage := ⟨none, [], [], []⟩

/-- The linear scan of `push_token`: first index of a byte-identical table
entry. -/
def findTok (bytes : List Nat) : List (List Nat) → Option Nat
  | [] => none
  | t :: ts => if t = bytes then some 0 else (findTok bytes ts).map (· + 1)

/-- The `i as i32` cast of `push_token` (two's-complement wrap). -/
def i32wrap (n : Nat) : Int := ((n : Int) + 2 ^ 31) % 2 ^ 32 - 2 ^ 31

/-- `push_token` from `src/compat/message.rs`: linear-scan the message's token
table for a byte-identical entry and return its index, else append the bytes
and return the new index (`(len - 1) as i32`). -/
def pushToken (table : List (List Nat)) (bytes : List Nat) : List (List Nat) × Int :=
  match findTok bytes table with
  | some i => (table, i32wrap i)
  | none => (table ++ [bytes], i32wrap table.length)

/-- The `tokens.iter().map(|token| push_token(&mut msg, token)).collect()`
interning loop: thread the table through `push_token` on each token's
`to_vec` encoding. -/
def internTokens (table : List (List Nat)) : List Token → List (List Nat) × List Int
  | [] => (table, [])
  | t :: ts =>
    let p1 := pushToken table t.to_vec
    let p2 := internTokens p1.1 ts
    (p2.1, p1.2 :: p2.2)

/-- `CompatMessage::to_bytes` up to the protobuf wire layer: build the
`bitswap_pb::Message` for one logical value.  A `Request` becomes a single
want-list entry with `sendDontHave = true`, `cancel = false`, `priority = 1`;
a `Response::Have` a block-presence entry; a `Response::Block` a payload entry
carrying the identifier's prefix bytes. -/
def CompatMessage.toMessage : CompatMessage → PbMessage
  | .Request r =>
    let p := internTokens [] r.tokens
    { wantlist := some [⟨r.cid.write_bytes, match r.ty with | .Block => 0 | .Have => 1,
        true, false, 1, p.2⟩],
      payload := [], blockPresences := [], tokens := p.1 }
  | .Response cid (.Have h) tokens =>
    let p := internTokens [] tokens
    { wantlist := none, payload := [],
      blockPresences := [⟨cid.write_bytes, if h then 0 else 1, p.2⟩], tokens := p.1 }
  | .Response cid (.Block data) tokens =>
    let p := internTokens [] tokens
    { wantlist := none, payload := [⟨(CidPfx.ofCid cid).to_bytes, data, p.2⟩],
      blockPresences := [], tokens := p.1 }

/-- The `*index as usize` cast of `extract_tokens` (`i32` sign-extended to a
64-bit `usize`). -/
def idxToUsize (i : Int) : Nat := (i % 2 ^ 64).toNat

/-- `extract_tokens` from `src/compat/message.rs`: resolve each index in the
shared token table (a missing slot is the bare `InvalidData` error) and decode
the stored bytes with `Token::from_bytes`; the first error fails the whole
resolution. -/
def extractTokens (table : List (List Nat)) : List Int → Except Err (List Token)
  | [] => .ok []
  | i :: is =>
    match table[idxToUsize i]? with
    | none => .error .invalidData
    | some bytes =>
      match Token.from_bytes bytes with
      | .error e => .error e
      | .ok t =>
        match extractTokens table is with
        | .error e => .error e
        | .ok ts => .ok (t :: ts)

/-- The want-type enum dispatch of `CompatMessage::from_bytes` (`Block = 0`,
`Have = 1`, anything else unrecognized). -/
def wantTypeToReq (w : Int) : Option RequestType :=
  if w = 0 then some .Block else if w = 1 then some .Have else none

/-- The presence enum dispatch (`Have = 0`, `DontHave = 1`). -/
def presenceToBool (w : Int) : Option Bool :=
  if w = 0 then some true else if w = 1 then some false else none

/-- One want-list entry of the `from_bytes` loop: skip (no value) when
`sendDontHave` is unset; parse the identifier (an `ErrorKind::Other` failure
aborts the message); skip on an unrecognized want-type; resolve the token
indices. -/
def decodeWant (table : List (List Nat)) (e : WantlistEntry) :
    Except Err (Option CompatMessage) :=
  if e.sendDontHave = false then .ok none
  else
    match Cid.tryFrom e.block with
    | .error _ => .error .otherErr
    | .ok cid =>
      match wantTypeToReq e.wantType with
      | none => .ok none
      | some ty =>
        match extractTokens table e.tokens with
        | .error err => .error err
        | .ok ts => .ok (some (.Request ⟨ty, cid, ts⟩))

/-- One payload entry of the `from_bytes` loop: rebuild the identifier from
prefix + data, resolve token indices; never skipped. -/
def decodePayload (table : List (List Nat)) (b : PbBlock) :
    Except Err (Option CompatMessage) :=
  match CidPfx.new b.pfx with
  | .error e => .error e
  | .ok p =>
    match p.to_cid b.data with
    | .error e => .error e
    | .ok cid =>
      match extractTokens table b.tokens with
      | .error err => .error err
      | .ok ts => .ok (some (.Response cid (.Block b.data) ts))

/-- One block-presence entry of the `from_bytes` loop: parse the identifier
(failure aborts the message), skip on an unrecognized presence value, resolve
token indices. -/
def decodePresence (table : List (List Nat)) (p : BlockPresence) :
    Except Err (Option CompatMessage) :=
  match Cid.tryFrom p.cid with
  | .error _ => .error .otherErr
  | .ok cid =>
    match presenceToBool p.type_pb with
    | none => .ok none
    | some h =>
      match extractTokens table p.tokens with
      | .error err => .error err
      | .ok ts => .ok (some (.Response cid (.Have h) ts))

/-- One `for` loop of `from_bytes`: decode each entry, dropping skipped ones
and aborting on the first error. -/
def collectParts {α : Type} (f : α → Except Err (Option CompatMessage)) :
    List α → Except Err (List CompatMessage)
  | [] => .ok []
  | a :: as_ =>
    match f a with
    | .error e => .error e
    | .ok none => collectParts f as_
    | .ok (some b) =>
      match collectParts f as_ with
      | .error e => .error e
      | .ok bs => .ok (b :: bs)

/-- The `if let Some(wantlist) = &msg.wantlist` guard. -/
def PbMessage.wantEntries (msg : PbMessage) : List WantlistEntry :=
  match msg.wantlist with
  | none => []
  | some es => es

/-- `CompatMessage::from_bytes` after the protobuf wire layer: decode the
want-list entries, then payload entries, then block-presence entries, in that
order, returning all decoded parts or the first error. -/
def CompatMessage.fromMessage (msg : PbMessage) : Except Err (List CompatMessage) :=
  match collectParts (decodeWant msg.tokens) msg.wantEntries with
  | .error e => .error e
  | .ok ws =>
    match collectParts (decodePayload msg.tokens) msg.payload with
    | .error e => .error e
    | .ok ps =>
      match collectParts (decodePresence msg.tokens) msg.blockPresences with
      | .error e => .error e
      | .ok qs => .ok (ws ++ ps ++ qs)

/-- Whether an `Except` carries a value. -/
def isOkE {α : Type} (x : Except Err α) : Bool :=
  match x with
  | .ok _ => true
  | .error _ => false

/-- A want-list entry that `from_bytes` actually decodes (is not skipped):
`sendDontHave` must be set, and then either the identifier bytes are malformed
(in which case the entry aborts the whole message rather than being skipped —
the identifier is parsed BEFORE the want-type check) or the want-type is
recognized. -/
def wantKept (e : WantlistEntry) : Bool :=
  e.sendDontHave && (!(isOkE (Cid.tryFrom e.block)) || (wantTypeToReq e.wantType).isSome)

/-- A block-presence entry that is not skipped: malformed identifier bytes
abort the message (parsed before the presence check); otherwise the presence
value must be recognized. -/
def presenceKept (p : BlockPresence) : Bool :=
  !(isOkE (Cid.tryFrom p.cid)) || (presenceToBool p.type_pb).isSome

/-- The message with all skipped entries removed (token table untouched). -/
def filterSkipped (msg : PbMessage) : PbMessage :=
  { msg with wantlist := msg.wantlist.map (fun es => es.filter wantKept),
             blockPresences := msg.blockPresences.filter presenceKept }

/-- The 32-byte-digest identifier of the spec's example scenario. -/
def exCid : Cid := ⟨1, 85, 30, List.replicate 32 7⟩

/-- The example token `Token(0x01, b"abc")`. -/
def exToken : Token := ⟨1, [97, 98, 99]⟩

/-- The example request `Request{ty: Block, id: exCid, tokens: [Token(0x01, b"abc")]}`. -/
def exRequest : BitswapRequest := ⟨.Block, exCid, [exToken]⟩

/-- A processed (non-skipped) want-list entry referencing token index 5. -/
def c7DanglingEntry : WantlistEntry := ⟨exCid.write_bytes, 0, true, false, 1, [5]⟩

/-- A compat message whose decoded entry references token index 5 against a
3-element token table. -/
def c7DanglingMsg : PbMessage := ⟨some [c7DanglingEntry], [], [], [[0], [1], [2]]⟩

/-- A compat message whose only entry references token index 5 against a
3-element token table but is SKIPPED (`sendDontHave = false`), so its dangling
index is never resolved. -/
def c7SkippedMsg : PbMessage := ⟨some [⟨[9], 0, false, false, 1, [5]⟩], [], [], [[0], [1], [2]]⟩

/-- A compat message whose only want-list entry has an unrecognized want-type
(99) and malformed (empty) identifier bytes. -/
def c8CexMsg : PbMessage := ⟨some [⟨[], 99, true, false, 1, []⟩], [], [], []⟩

/-- A compat message with one skipped entry (`sendDontHave = false`, malformed
identifier bytes AND a dangling token index, none of which matter) and one
well-formed sibling entry. -/
def c8GoodMsg : PbMessage :=
  ⟨some [⟨[9], 0, false, false, 1, [7]⟩, ⟨exCid.write_bytes, 1, true, false, 1, []⟩], [], [], []⟩

/-! ## Varint round trip -/

/-- Main varint invariant: decoding the encoder's output starting at byte
index `i` with partial value `acc` recovers `acc + n * 2 ^ (7 * i)`, provided
no 64-bit (resp. `W`-bit) overflow can occur. -/
theorem readVarAux_writeVarGo {W L : Nat} (hWL : W ≤ 7 * L) :
    ∀ (fuel n i acc : Nat) (rest : List Nat), n < 2 ^ (7 * fuel) → (i = 0 ∨ 1 ≤ n) →
      acc + n * 2 ^ (7 * i) < 2 ^ W →
      readVarAux W L (writeVarGo fuel n ++ rest) i acc = .ok (acc + n * 2 ^ (7 * i), rest) := by
  intro fuel
  induction fuel with
  | zero =>
    intro n i acc rest hn hi hb
    have hn0 : n = 0 := by simpa using hn
    subst hn0
    have hi0 : i = 0 := by rcases hi with h | h; exact h; omega
    subst hi0
    simp only [writeVarGo, List.singleton_append, readVarAux]
    have hacc : acc % 2 ^ W = acc := Nat.mod_eq_of_lt (by simpa using hb)
    simp [hacc]
  | succ fuel ih =>
    intro n i acc rest hn hi hb
    by_cases hsmall : n < 128
    · have hmod : n % 128 = n := Nat.mod_eq_of_lt hsmall
      have hne : ¬(i ≠ 0 ∧ n = 0) := by
        rcases hi with h | h
        · simp [h]
        · intro hc; omega
      simp only [writeVarGo, if_pos hsmall, List.singleton_append, readVarAux]
      rw [if_neg hne, hmod, Nat.mod_eq_of_lt hb]
    · have h128 : 128 ≤ n := le_of_not_lt hsmall
      have hbmod : (n % 128 + 128) % 128 = n % 128 := by omega
      have hbge : ¬(n % 128 + 128 < 128) := by omega
      have hp7 : (2 : Nat) ^ (7 * (i + 1)) = 2 ^ (7 * i) * 128 := by
        rw [show 7 * (i + 1) = 7 * i + 7 by ring, pow_add]; norm_num
      have hnn : n * 2 ^ (7 * i) < 2 ^ W := by omega
      have hWlow : 2 ^ (7 * (i + 1)) < 2 ^ W := by
        calc (2 : Nat) ^ (7 * (i + 1)) = 2 ^ (7 * i) * 128 := hp7
        _ ≤ 2 ^ (7 * i) * n := Nat.mul_le_mul_left _ h128
        _ = n * 2 ^ (7 * i) := Nat.mul_comm _ _
        _ < 2 ^ W := hnn
      have hiL2 : 7 * (i + 1) < W :=
        (Nat.pow_lt_pow_iff_right Nat.one_lt_two).mp hWlow
      have hiL : ¬(i = L - 1) := by omega
      have hmodle : acc + n % 128 * 2 ^ (7 * i) < 2 ^ W := by
        have : n % 128 * 2 ^ (7 * i) ≤ n * 2 ^ (7 * i) :=
          Nat.mul_le_mul_right _ (Nat.mod_le n 128)
        omega
      have hdiv : n / 128 < 2 ^ (7 * fuel) := by
        have hn' : n < 2 ^ (7 * fuel) * 128 := by
          have : (2 : Nat) ^ (7 * (fuel + 1)) = 2 ^ (7 * fuel) * 128 := by
            rw [show 7 * (fuel + 1) = 7 * fuel + 7 by ring, pow_add]; norm_num
          omega
        exact (Nat.div_lt_iff_lt_mul (by omega)).mpr hn'
      have hone : 1 ≤ n / 128 := (Nat.one_le_div_iff (by omega)).mpr h128
      have hkey : acc + n % 128 * 2 ^ (7 * i) + n / 128 * 2 ^ (7 * (i + 1)) =
          acc + n * 2 ^ (7 * i) := by
        rw [hp7]
        have hsplit : n % 128 + 128 * (n / 128) = n := Nat.mod_add_div n 128
        calc acc + n % 128 * 2 ^ (7 * i) + n / 128 * (2 ^ (7 * i) * 128)
            = acc + (n % 128 + 128 * (n / 128)) * 2 ^ (7 * i) := by ring
        _ = acc + n * 2 ^ (7 * i) := by rw [hsplit]
      have hb' : acc + n % 128 * 2 ^ (7 * i) + n / 128 * 2 ^ (7 * (i + 1)) < 2 ^ W := by
        rw [hkey]; exact hb
      simp only [writeVarGo, if_neg hsmall, List.cons_append, readVarAux]
      rw [if_neg hbge, if_neg hiL, hbmod, Nat.mod_eq_of_lt hmodle,
        ih (n / 128) (i + 1) (acc + n % 128 * 2 ^ (7 * i)) rest hdiv (Or.inr hone) hb', hkey]

/-- `unsigned_varint` u64 round trip: decoding the encoding of any `u64`
recovers it and leaves the remaining bytes untouched. -/
theorem readU64_writeVar (n : Nat) (rest : List Nat) (hn : n < 2 ^ 64) :
    readU64 (writeVar n ++ rest) = .ok (n, rest) := by
  have h := readVarAux_writeVarGo (W := 64) (L := 10) (by norm_num) 10 n 0 0 rest
    (lt_trans hn (Nat.pow_lt_pow_right Nat.one_lt_two (by norm_num)))
    (Or.inl rfl) (by simpa using hn)
  simpa [readU64, writeVar] using h

/-- `unsigned_varint` u32 round trip (the frame-length prefix). -/
theorem readU32_writeVar (n : Nat) (rest : List Nat) (hn : n < 2 ^ 32) :
    readU32 (writeVar n ++ rest) = .ok (n, rest) := by
  have h := readVarAux_writeVarGo (W := 32) (L := 5) (by norm_num) 10 n 0 0 rest
    (lt_trans hn (Nat.pow_lt_pow_right Nat.one_lt_two (by norm_num)))
    (Or.inl rfl) (by simpa using hn)
  simpa [readU32, writeVar] using h

/-- Decoding a single `0x00` byte yields zero (used by the `to_vec` analysis). -/
theorem readU64_zero (rest : List Nat) : readU64 (0 :: rest) = .ok (0, rest) := by
  simp [readU64, readVarAux]

/-! ## Token and identifier round trips -/

/-- `Token::write_to` on a fresh buffer produces exactly the token's wire
image. -/
theorem token_write_to_nil (t : Token) : t.write_to [] = tokenBytes t := by
  simp [Token.write_to, tokenBytes]

/-- Reading a token off the front of a stream that starts with its wire image
recovers the token and the remaining bytes. -/
theorem token_read_bytes_append (t : Token) (rest : List Nat)
    (hc : t.codec < 2 ^ 64) (hv : t.value.length < 2 ^ 64) :
    Token.read_bytes (tokenBytes t ++ rest) = .ok (t, rest) := by
  have h1 : readU64 (writeVar t.codec ++ (writeVar t.value.length ++ (t.value ++ rest))) =
      .ok (t.codec, writeVar t.value.length ++ (t.value ++ rest)) :=
    readU64_writeVar _ _ hc
  have h2 : readU64 (writeVar t.value.length ++ (t.value ++ rest)) =
      .ok (t.value.length, t.value ++ rest) :=
    readU64_writeVar _ _ hv
  have hlen : ¬((t.value ++ rest).length < t.value.length) := by
    simp
  simp [Token.read_bytes, tokenBytes, List.append_assoc, h1, h2, hlen,
    List.take_left, List.drop_left]

/-- Reading back the token count and the concatenated token encodings recovers
the token list. -/
theorem readTokens_tokensBytes (ts : List Token) (rest : List Nat)
    (h : ∀ t ∈ ts, t.codec < 2 ^ 64 ∧ t.value.length < 2 ^ 64) :
    readTokens ts.length (tokensBytes ts ++ rest) = .ok (ts, rest) := by
  induction ts with
  | nil => simp [readTokens, tokensBytes]
  | cons t ts ih =>
    have ht := h t (List.mem_cons_self t ts)
    have hts : ∀ u ∈ ts, u.codec < 2 ^ 64 ∧ u.value.length < 2 ^ 64 :=
      fun u hu => h u (List.mem_cons_of_mem t hu)
    simp only [tokensBytes, List.length_cons, readTokens, List.append_assoc,
      token_read_bytes_append t (tokensBytes ts ++ rest) ht.1 ht.2, ih hts]

/-- The modelled identifier serialization round-trips off the front of a
stream. -/
theorem cid_read_bytes_append (c : Cid) (rest : List Nat)
    (h1 : c.version < 2 ^ 64) (h2 : c.codec < 2 ^ 64) (h3 : c.hashAlgo < 2 ^ 64)
    (h4 : c.digest.length < 2 ^ 64) :
    Cid.read_bytes (c.write_bytes ++ rest) = .ok (c, rest) := by
  have hv : readU64 (writeVar c.version ++ (writeVar c.codec ++ (writeVar c.hashAlgo ++
      (writeVar c.digest.length ++ (c.digest ++ rest))))) =
      .ok (c.version, writeVar c.codec ++ (writeVar c.hashAlgo ++
        (writeVar c.digest.length ++ (c.digest ++ rest)))) :=
    readU64_writeVar _ _ h1
  have hc : readU64 (writeVar c.codec ++ (writeVar c.hashAlgo ++
      (writeVar c.digest.length ++ (c.digest ++ rest)))) =
      .ok (c.codec, writeVar c.hashAlgo ++ (writeVar c.digest.length ++ (c.digest ++ rest))) :=
    readU64_writeVar _ _ h2
  have ha : readU64 (writeVar c.hashAlgo ++ (writeVar c.digest.length ++ (c.digest ++ rest))) =
      .ok (c.hashAlgo, writeVar c.digest.length ++ (c.digest ++ rest)) :=
    readU64_writeVar _ _ h3
  have hl : readU64 (writeVar c.digest.length ++ (c.digest ++ rest)) =
      .ok (c.digest.length, c.digest ++ rest) :=
    readU64_writeVar _ _ h4
  have hlen : ¬((c.digest ++ rest).length < c.digest.length) := by
    simp
  simp [Cid.read_bytes, Cid.write_bytes, List.append_assoc, hv, hc, ha, hl, hlen,
    List.take_left, List.drop_left]

/-! ## Claim theorems -/

/-- C3: for every `Token(codec, value)`, `Token::to_vec` returns `8 + 8 +
len(value)` zero bytes followed by the wire encoding that `Token::write_to`
produces (writing into the pre-sized `Vec` appends rather than overwrites);
consequently `Token::from_bytes` applied to that vector returns `Token(0, [])`
for every input token, not the original token. -/
theorem claim_c3_to_vec_zero_padding (t : Token) :
    t.to_vec = List.replicate (8 + 8 + t.value.length) 0 ++ tokenBytes t ∧
    Token.from_bytes t.to_vec = .ok ⟨0, []⟩ := by
  constructor
  · simp [Token.to_vec, Token.write_to, tokenBytes, List.append_assoc]
  · have e1 : t.to_vec = 0 :: 0 :: (List.replicate (t.value.length + 14) 0 ++ tokenBytes t) := by
      have h : 8 + 8 + t.value.length = t.value.length + 14 + 1 + 1 := by omega
      simp [Token.to_vec, Token.write_to, tokenBytes, h, List.replicate_succ,
        List.append_assoc]
    rw [e1]
    simp [Token.from_bytes, Token.read_bytes, readU64_zero, Except.map]

/-- C4: token codec round trip — for every `Token(codec, value)` whose value
length fits 64 bits (including the empty value), `Token::read_bytes` applied
to the bytes `Token::write_to` produced recovers the token exactly. -/
theorem claim_c4_token_roundtrip (t : Token)
    (hc : t.codec < 2 ^ 64) (hv : t.value.length < 2 ^ 64) :
    Token.read_bytes (t.write_to []) = .ok (t, []) := by
  rw [token_write_to_nil]
  have h := token_read_bytes_append t [] hc hv
  simpa using h

/-- Witness for C4 at `Token(1, b"abc")` and at the empty-value token `Token(5, b"")`. -/
theorem claim_c4_witness :
    (⟨1, [97, 98, 99]⟩ : Token).codec < 2 ^ 64 ∧
    (⟨1, [97, 98, 99]⟩ : Token).value.length < 2 ^ 64 ∧
    Token.read_bytes (Token.write_to ⟨1, [97, 98, 99]⟩ []) = .ok (⟨1, [97, 98, 99]⟩, []) ∧
    Token.read_bytes (Token.write_to ⟨5, []⟩ []) = .ok (⟨5, []⟩, []) :=
  ⟨by decide, by decide, claim_c4_token_roundtrip _ (by decide) (by decide),
    claim_c4_token_roundtrip _ (by decide) (by decide)⟩

/-- C2: `BitswapResponse::from_bytes` reads `bytes[0]` with no emptiness
check, so it PANICS (modelled `none`) on the empty byte sequence — the claim's
"never panics" fails there; on every nonempty input it does return a decoded
value or a typed error. -/
theorem claim_c2_response_empty_panics :
    BitswapResponse.from_bytes [] = none ∧
    ∀ (b : Nat) (rest : List Nat), BitswapResponse.from_bytes (b :: rest) ≠ none := by
  refine ⟨rfl, ?_⟩
  intro b rest
  simp only [BitswapResponse.from_bytes]
  split_ifs <;> simp

/-- C9: decoding a native request frame whose tag byte is neither 0 nor 1, or
a native response frame whose tag byte is none of 0, 1, 2, fails with
`UnknownMessageType` carrying the offending byte. -/
theorem claim_c9_unknown_tag (c : Nat) (rest : List Nat) (hbyte : c < 256) :
    (2 ≤ c → BitswapRequest.from_bytes (c :: rest) = .error (.unknownMessageType c)) ∧
    (3 ≤ c → BitswapResponse.from_bytes (c :: rest) = some (.error (.unknownMessageType c))) := by
  constructor
  · intro h2
    have h0 : c ≠ 0 := by omega
    have h1 : c ≠ 1 := by omega
    simp [BitswapRequest.from_bytes, h0, h1]
  · intro h3
    have h0 : c ≠ 0 := by omega
    have h1 : c ≠ 1 := by omega
    have h2 : c ≠ 2 := by omega
    simp [BitswapResponse.from_bytes, h0, h1, h2]

/-- Witness for C9 at the spec's example byte `0x03`. -/
theorem claim_c9_witness :
    (3 : Nat) < 256 ∧ 2 ≤ (3 : Nat) ∧ 3 ≤ (3 : Nat) ∧
    BitswapRequest.from_bytes [3] = .error (.unknownMessageType 3) ∧
    BitswapResponse.from_bytes [3, 9] = some (.error (.unknownMessageType 3)) :=
  ⟨by decide, by decide, by decide,
    (claim_c9_unknown_tag 3 [] (by decide)).1 (by decide),
    (claim_c9_unknown_tag 3 [9] (by decide)).2 (by decide)⟩

/-- C5: native codec round trip — every `BitswapRequest` whose numeric fields
fit their wire integer types round-trips through `write_to`/`from_bytes`
(the size ceilings imply these bounds), every `BitswapResponse` round-trips
unconditionally, and the spec's example scenario encodes to
`0x01 ‖ id-bytes ‖ 0x01 ‖ 0x01 ‖ 0x03 ‖ "abc"` and decodes back. -/
theorem claim_c5_native_roundtrip :
    (∀ r : BitswapRequest, r.cid.version < 2 ^ 64 → r.cid.codec < 2 ^ 64 →
      r.cid.hashAlgo < 2 ^ 64 → r.cid.digest.length < 2 ^ 64 → r.tokens.length < 2 ^ 64 →
      (∀ t ∈ r.tokens, t.codec < 2 ^ 64 ∧ t.value.length < 2 ^ 64) →
      BitswapRequest.from_bytes r.write_to = .ok r) ∧
    (∀ res : BitswapResponse, BitswapResponse.from_bytes res.write_to = some (.ok res)) ∧
    exRequest.write_to = 1 :: (exCid.write_bytes ++ [1] ++ [1, 3, 97, 98, 99]) ∧
    BitswapRequest.from_bytes exRequest.write_to = .ok exRequest := by
  refine ⟨?_, ?_, by decide, by decide⟩
  · rintro ⟨ty, cid, tokens⟩ h1 h2 h3 h4 h5 h6
    have hcid := cid_read_bytes_append cid (writeVar tokens.length ++ tokensBytes tokens)
      h1 h2 h3 h4
    have hlen := readU64_writeVar tokens.length (tokensBytes tokens) h5
    have htoks := readTokens_tokensBytes tokens [] h6
    rw [List.append_nil] at htoks
    cases ty <;>
      simp [BitswapRequest.write_to, BitswapRequest.from_bytes, readRequestBody,
        List.append_assoc, hcid, hlen, htoks]
  · intro res
    match res with
    | .Have true => rfl
    | .Have false => rfl
    | .Block data => simp [BitswapResponse.write_to, BitswapResponse.from_bytes]

/-- Witness for C5's quantified parts at the example request and at all three
response shapes. -/
theorem claim_c5_witness :
    exRequest.cid.version < 2 ^ 64 ∧ exRequest.cid.digest.length < 2 ^ 64 ∧
    exRequest.tokens.length < 2 ^ 64 ∧
    BitswapRequest.from_bytes exRequest.write_to = .ok exRequest ∧
    BitswapResponse.from_bytes (BitswapResponse.write_to (.Block [5, 6])) =
      some (.ok (.Block [5, 6])) :=
  ⟨by decide, by decide, by decide,
    claim_c5_native_roundtrip.1 exRequest (by decide) (by decide) (by decide) (by decide)
      (by decide) (by decide),
    claim_c5_native_roundtrip.2.1 (.Block [5, 6])⟩

/-- C6: size-ceiling enforcement.  A request frame whose declared length
exceeds `MAX_CID_SIZE + MAX_TOKEN_SIZE + 1 = 1048681` fails with
`MessageTooLarge` carrying that length — whatever payload bytes follow, even
none at all, i.e. the check happens before any payload is copied; a declared
length of exactly the ceiling passes the check and decoding proceeds on the
payload.  Same for response frames with the `maxBlockSize + 1` ceiling, and
for the encode side of both. -/
theorem claim_c6_size_ceiling :
    (∀ (n : Nat) (rest : List Nat), n < 2 ^ 32 → MAX_CID_SIZE + MAX_TOKEN_SIZE + 1 < n →
      readRequestFrame (writeVar n ++ rest) = .error (.messageTooLarge n)) ∧
    (∀ payload : List Nat, payload.length = MAX_CID_SIZE + MAX_TOKEN_SIZE + 1 →
      readRequestFrame (writeVar payload.length ++ payload) =
        BitswapRequest.from_bytes payload) ∧
    (∀ (maxB n : Nat) (rest : List Nat), n < 2 ^ 32 → maxB + 1 < n →
      readResponseFrame maxB (writeVar n ++ rest) = some (.error (.messageTooLarge n))) ∧
    (∀ (maxB : Nat) (payload : List Nat), maxB + 1 < 2 ^ 32 → payload.length = maxB + 1 →
      readResponseFrame maxB (writeVar payload.length ++ payload) =
        BitswapResponse.from_bytes payload) ∧
    (∀ r : BitswapRequest, MAX_CID_SIZE + MAX_TOKEN_SIZE + 1 < r.write_to.length →
      writeRequestFrame r = .error (.messageTooLarge r.write_to.length)) ∧
    (∀ (maxB : Nat) (res : BitswapResponse), maxB + 1 < res.write_to.length →
      writeResponseFrame maxB res = .error (.messageTooLarge res.write_to.length)) := by
  refine ⟨?_, ?_, ?_, ?_, ?_, ?_⟩
  · intro n rest hn hbig
    simp [readRequestFrame, readU32_writeVar n rest hn, hbig]
  · intro payload hlen
    have h32 : payload.length < 2 ^ 32 := by
      rw [hlen]; simp [MAX_CID_SIZE, MAX_TOKEN_SIZE]
    have hno : ¬(MAX_CID_SIZE + MAX_TOKEN_SIZE + 1 < payload.length) := by omega
    simp [readRequestFrame, readU32_writeVar payload.length payload h32, hno,
      List.take_length]
  · intro maxB n rest hn hbig
    simp [readResponseFrame, readU32_writeVar n rest hn, hbig]
  · intro maxB payload h32 hlen
    have h32' : payload.length < 2 ^ 32 := by omega
    have hno : ¬(maxB + 1 < payload.length) := by omega
    simp [readResponseFrame, readU32_writeVar payload.length payload h32', hno,
      List.take_length]
  · intro r hbig
    simp [writeRequestFrame, hbig]
  · intro maxB res hbig
    simp [writeResponseFrame, hbig]

/-- Witness for C6: a declared length one over the ceiling (`1048682`, with no
payload bytes at all) is rejected; a ceiling-sized frame proceeds to decode;
small concrete instances of the response and encode cases. -/
theorem claim_c6_witness :
    (1048682 : Nat) < 2 ^ 32 ∧ MAX_CID_SIZE + MAX_TOKEN_SIZE + 1 < 1048682 ∧
    readRequestFrame (writeVar 1048682) = .error (.messageTooLarge 1048682) ∧
    readRequestFrame (writeVar (List.replicate 1048681 0).length ++ List.replicate 1048681 0) =
      BitswapRequest.from_bytes (List.replicate 1048681 0) ∧
    readResponseFrame 4 (writeVar 6 ++ [1, 9]) = some (.error (.messageTooLarge 6)) ∧
    readResponseFrame 4 (writeVar ([0, 0, 0, 0, 0] : List Nat).length ++ [0, 0, 0, 0, 0]) =
      BitswapResponse.from_bytes [0, 0, 0, 0, 0] := by
  refine ⟨by decide, by decide, ?_, ?_, ?_, ?_⟩
  · have h := claim_c6_size_ceiling.1 1048682 [] (by decide) (by decide)
    simpa using h
  · exact claim_c6_size_ceiling.2.1 (List.replicate 1048681 0)
      (by rw [List.length_replicate]; decide)
  · exact claim_c6_size_ceiling.2.2.1 4 6 [1, 9] (by decide) (by decide)
  · exact claim_c6_size_ceiling.2.2.2.1 4 [0, 0, 0, 0, 0] (by decide) (by decide)

/-- C1: the compat round trip is NOT lossless on tokens.  Encoding the example
request with token `Token(1, b"abc")` and decoding the resulting message
returns one `Request` — but with its token collapsed to `Token(0, [])`,
because the token table stores `Token::to_vec`'s zero-prefixed bytes (C3).
The identifier, request type and entry structure do survive. -/
theorem claim_c1_compat_token_corruption :
    CompatMessage.fromMessage (CompatMessage.toMessage (.Request exRequest)) =
      .ok [.Request ⟨.Block, exCid, [⟨0, []⟩]⟩] ∧
    CompatMessage.fromMessage (CompatMessage.toMessage (.Request exRequest)) ≠
      .ok [.Request exRequest] := by
  constructor
  · decide
  · decide

/-! ## Compat error-propagation lemmas (claim C7) -/

/-- A token-index list containing an index at or beyond the table length makes
`extract_tokens` fail. -/
theorem extractTokens_dangles (table : List (List Nat)) (idxs : List Int)
    (h : ∃ i ∈ idxs, table.length ≤ idxToUsize i) :
    ∃ e, extractTokens table idxs = .error e := by
  induction idxs with
  | nil => simp at h
  | cons j js ih =>
    rcases h with ⟨i, hmem, hge⟩
    rcases List.mem_cons.mp hmem with rfl | hmem'
    · have hnone : table[idxToUsize i]? = none := List.getElem?_eq_none hge
      exact ⟨.invalidData, by simp [extractTokens, hnone]⟩
    · cases hg : table[idxToUsize j]? with
      | none => exact ⟨.invalidData, by simp [extractTokens, hg]⟩
      | some bytes =>
        cases hf : Token.from_bytes bytes with
        | error e => exact ⟨e, by simp [extractTokens, hg, hf]⟩
        | ok t =>
          rcases ih ⟨i, hmem', hge⟩ with ⟨e, he⟩
          exact ⟨e, by simp [extractTokens, hg, hf, he]⟩

/-- If some entry of a section fails to decode, the whole section fold fails. -/
theorem collectParts_mem_error {α : Type} (f : α → Except Err (Option CompatMessage))
    (l : List α) (a : α) (ha : a ∈ l) (he : ∃ e, f a = .error e) :
    ∃ e, collectParts f l = .error e := by
  induction l with
  | nil => simp at ha
  | cons x xs ih =>
    rcases List.mem_cons.mp ha with rfl | hmem
    · rcases he with ⟨e, hfe⟩
      exact ⟨e, by simp [collectParts, hfe]⟩
    · cases hf : f x with
      | error e => exact ⟨e, by simp [collectParts, hf]⟩
      | ok ob =>
        rcases ih hmem with ⟨e, hce⟩
        cases ob with
        | none => exact ⟨e, by simp [collectParts, hf, hce]⟩
        | some b => exact ⟨e, by simp [collectParts, hf, hce]⟩

/-- A processed (non-skipped) want-list entry with a dangling token index makes
its decode step fail. -/
theorem decodeWant_dangles (table : List (List Nat)) (e : WantlistEntry)
    (hs : e.sendDontHave = true) (ht : (wantTypeToReq e.wantType).isSome = true)
    (hd : ∃ i ∈ e.tokens, table.length ≤ idxToUsize i) :
    ∃ err, decodeWant table e = .error err := by
  rcases extractTokens_dangles table e.tokens hd with ⟨err, herr⟩
  cases hc : Cid.tryFrom e.block with
  | error e2 => exact ⟨.otherErr, by simp [decodeWant, hs, hc]⟩
  | ok cid =>
    obtain ⟨ty, hty⟩ := Option.isSome_iff_exists.mp ht
    exact ⟨err, by simp [decodeWant, hs, hc, hty, herr]⟩

/-- A payload entry with a dangling token index makes its decode step fail. -/
theorem decodePayload_dangles (table : List (List Nat)) (b : PbBlock)
    (hd : ∃ i ∈ b.tokens, table.length ≤ idxToUsize i) :
    ∃ err, decodePayload table b = .error err := by
  rcases extractTokens_dangles table b.tokens hd with ⟨err, herr⟩
  cases hp : CidPfx.new b.pfx with
  | error e2 => exact ⟨e2, by simp [decodePayload, hp]⟩
  | ok p => exact ⟨err, by simp [decodePayload, hp, CidPfx.to_cid, herr]⟩

/-- A block-presence entry with a recognized presence value and a dangling
token index makes its decode step fail. -/
theorem decodePresence_dangles (table : List (List Nat)) (p : BlockPresence)
    (ht : (presenceToBool p.type_pb).isSome = true)
    (hd : ∃ i ∈ p.tokens, table.length ≤ idxToUsize i) :
    ∃ err, decodePresence table p = .error err := by
  rcases extractTokens_dangles table p.tokens hd with ⟨err, herr⟩
  cases hc : Cid.tryFrom p.cid with
  | error e2 => exact ⟨.otherErr, by simp [decodePresence, hc]⟩
  | ok cid =>
    obtain ⟨h, hh⟩ := Option.isSome_iff_exists.mp ht
    exact ⟨err, by simp [decodePresence, hc, hh, herr]⟩

/-- C7 (amended): a dangling token index in any entry that is actually decoded
— a want-list entry with `sendDontHave` set and a recognized want-type, any
payload entry, or a block-presence entry with a recognized presence value —
fails the whole compat message, so no entries are returned; and on the
spec's concrete shape (index 5 against a 3-element table, rest of the message
well-formed) the error is exactly `InvalidData`.  (A dangling index inside a
SKIPPED entry is never resolved — see the counterexample.) -/
theorem claim_c7_dangling_index :
    (∀ msg : PbMessage,
      ((∃ es e, msg.wantlist = some es ∧ e ∈ es ∧ e.sendDontHave = true ∧
          (wantTypeToReq e.wantType).isSome = true ∧
          ∃ i ∈ e.tokens, msg.tokens.length ≤ idxToUsize i) ∨
       (∃ b ∈ msg.payload, ∃ i ∈ b.tokens, msg.tokens.length ≤ idxToUsize i) ∨
       (∃ p ∈ msg.blockPresences, (presenceToBool p.type_pb).isSome = true ∧
          ∃ i ∈ p.tokens, msg.tokens.length ≤ idxToUsize i)) →
      ∃ err, CompatMessage.fromMessage msg = .error err) ∧
    CompatMessage.fromMessage c7DanglingMsg = .error .invalidData := by
  constructor
  · intro msg hcase
    rcases hcase with ⟨es, e, hw, hmem, hs, ht, hd⟩ | ⟨b, hmem, hd⟩ | ⟨p, hmem, hp, hd⟩
    · have hent : e ∈ msg.wantEntries := by
        simp [PbMessage.wantEntries, hw]; exact hmem
      rcases collectParts_mem_error _ _ e hent (decodeWant_dangles _ _ hs ht hd) with ⟨er, her⟩
      exact ⟨er, by simp [CompatMessage.fromMessage, her]⟩
    · rcases collectParts_mem_error _ _ b hmem (decodePayload_dangles _ _ hd) with ⟨er, her⟩
      cases hcw : collectParts (decodeWant msg.tokens) msg.wantEntries with
      | error e0 => exact ⟨e0, by simp [CompatMessage.fromMessage, hcw]⟩
      | ok ws => exact ⟨er, by simp [CompatMessage.fromMessage, hcw, her]⟩
    · rcases collectParts_mem_error _ _ p hmem (decodePresence_dangles _ _ hp hd) with ⟨er, her⟩
      cases hcw : collectParts (decodeWant msg.tokens) msg.wantEntries with
      | error e0 => exact ⟨e0, by simp [CompatMessage.fromMessage, hcw]⟩
      | ok ws =>
        cases hcp : collectParts (decodePayload msg.tokens) msg.payload with
        | error e1 => exact ⟨e1, by simp [CompatMessage.fromMessage, hcw, hcp]⟩
        | ok ps => exact ⟨er, by simp [CompatMessage.fromMessage, hcw, hcp, her]⟩
  · decide

/-- C7 counterexample to the claim as stated: `c7SkippedMsg` contains an entry
referencing token index 5 against its 3-element token table, yet
`from_bytes` returns `Ok` (with no entries) instead of failing with
`InvalidData`, because the entry is skipped (`sendDontHave = false`) before
its token indices are ever resolved. -/
theorem claim_c7_counterexample :
    c7SkippedMsg.tokens.length = 3 ∧ (3 : Nat) ≤ idxToUsize 5 ∧
    CompatMessage.fromMessage c7SkippedMsg = .ok [] := by
  refine ⟨by decide, by decide, by decide⟩

/-- Witness for C7 at the concrete dangling message. -/
theorem claim_c7_witness :
    ∃ err, CompatMessage.fromMessage c7DanglingMsg = .error err :=
  claim_c7_dangling_index.1 c7DanglingMsg
    (Or.inl ⟨[c7DanglingEntry], c7DanglingEntry, rfl, by decide, by decide, by decide,
      ⟨5, by decide, by decide⟩⟩)

/-! ## Compat skip lemmas (claim C8) -/

/-- A want-list entry that is not kept decodes to "no value" (it is skipped,
never an error). -/
theorem decodeWant_of_not_kept (table : List (List Nat)) (e : WantlistEntry)
    (h : wantKept e = false) : decodeWant table e = .ok none := by
  by_cases hs : e.sendDontHave = false
  · simp [decodeWant, hs]
  · have hs' : e.sendDontHave = true := by
      revert hs; cases e.sendDontHave <;> simp
    cases hc : Cid.tryFrom e.block with
    | error e2 =>
      exfalso
      simp [wantKept, hs', isOkE, hc] at h
    | ok cid =>
      have hok : isOkE (Cid.tryFrom e.block) = true := by simp [isOkE, hc]
      have hw : wantTypeToReq e.wantType = none := by
        simp [wantKept, hs', hok] at h
        exact Option.not_isSome_iff_eq_none.mp (by simp [h])
      simp [decodeWant, hs', hc, hw]

/-- A block-presence entry that is not kept decodes to "no value". -/
theorem decodePresence_of_not_kept (table : List (List Nat)) (p : BlockPresence)
    (h : presenceKept p = false) : decodePresence table p = .ok none := by
  cases hc : Cid.tryFrom p.cid with
  | error e2 =>
    exfalso
    simp [presenceKept, isOkE, hc] at h
  | ok cid =>
    have hok : isOkE (Cid.tryFrom p.cid) = true := by simp [isOkE, hc]
    have hw : presenceToBool p.type_pb = none := by
      simp [presenceKept, hok] at h
      exact Option.not_isSome_iff_eq_none.mp (by simp [h])
    simp [decodePresence, hc, hw]

/-- Entries whose decode step yields "no value" can be filtered out of a
section without changing the fold's result. -/
theorem collectParts_filter {α : Type} (f : α → Except Err (Option CompatMessage))
    (p : α → Bool) (hp : ∀ a, p a = false → f a = .ok none) (l : List α) :
    collectParts f (l.filter p) = collectParts f l := by
  induction l with
  | nil => rfl
  | cons x xs ih =>
    by_cases hx : p x = true
    · cases hf : f x with
      | error e => simp [List.filter_cons, hx, collectParts, hf]
      | ok ob => cases ob <;> simp [List.filter_cons, hx, collectParts, hf, ih]
    · have hx' : p x = false := by revert hx; cases p x <;> simp
      simp [List.filter_cons, hx', collectParts, hp x hx', ih]

/-- C8 (amended): removing the skipped entries — want-list entries with
`sendDontHave = false`, and entries whose identifier bytes parse but whose
enum value is unrecognized — never changes the decode result of a compat
message, so sibling entries decode exactly as before and a message whose
remaining entries are well-formed still decodes to `Ok`; concretely,
`c8GoodMsg` (one `sendDontHave = false` entry with malformed identifier bytes
and a dangling token index, plus one well-formed sibling) decodes to exactly
the sibling.  (An entry with an unrecognized enum AND malformed identifier
bytes is not skipped: identifier parsing comes first — see the
counterexample.) -/
theorem claim_c8_skip_not_fail :
    (∀ msg : PbMessage,
      CompatMessage.fromMessage (filterSkipped msg) = CompatMessage.fromMessage msg) ∧
    CompatMessage.fromMessage c8GoodMsg = .ok [.Request ⟨.Have, exCid, []⟩] := by
  constructor
  · intro msg
    have h2 : (filterSkipped msg).wantEntries = msg.wantEntries.filter wantKept := by
      cases hw : msg.wantlist <;> simp [filterSkipped, PbMessage.wantEntries, hw]
    have hq : (filterSkipped msg).tokens = msg.tokens := rfl
    have h3 : (filterSkipped msg).payload = msg.payload := rfl
    have h4 : (filterSkipped msg).blockPresences = msg.blockPresences.filter presenceKept :=
      rfl
    simp only [CompatMessage.fromMessage, hq, h2, h3, h4,
      collectParts_filter _ _ (decodeWant_of_not_kept msg.tokens),
      collectParts_filter _ _ (decodePresence_of_not_kept msg.tokens)]
  · decide

/-- C8 counterexample to the claim as stated: the only entry of `c8CexMsg` has
an unrecognized want-type enum (99), so per the claim it should be dropped
with the message still returning `Ok` — but its identifier bytes are empty
(malformed) and the identifier is parsed BEFORE the enum check, so the whole
message fails with the identifier error instead. -/
theorem claim_c8_counterexample :
    CompatMessage.fromMessage c8CexMsg = .error .otherErr ∧
    wantTypeToReq 99 = none := by
  refine ⟨by decide, by decide⟩

/-! ## Token interning lemmas (claim C10) -/

/-- The linear scan finds nothing exactly when the bytes are not in the table. -/
theorem findTok_none_iff (bytes : List Nat) (table : List (List Nat)) :
    findTok bytes table = none ↔ bytes ∉ table := by
  induction table with
  | nil => simp [findTok]
  | cons t ts ih =>
    by_cases ht : t = bytes
    · subst ht; simp [findTok]
    · simp [findTok, ht, ih, List.mem_cons, Ne.symm ht]

/-- The index the scan returns holds exactly the scanned-for bytes. -/
theorem findTok_some_get (bytes : List Nat) (table : List (List Nat)) (i : Nat)
    (h : findTok bytes table = some i) : table[i]? = some bytes := by
  induction table generalizing i with
  | nil => simp [findTok] at h
  | cons t ts ih =>
    by_cases ht : t = bytes
    · subst ht
      simp [findTok] at h
      simp [← h]
    · simp [findTok, ht] at h
      rcases h with ⟨j, hj, hji⟩
      subst hji
      simpa using ih j hj

/-- After appending fresh bytes, the scan finds them at the old length. -/
theorem findTok_append_self (bytes : List Nat) (table : List (List Nat))
    (h : bytes ∉ table) : findTok bytes (table ++ [bytes]) = some table.length := by
  induction table with
  | nil => simp [findTok]
  | cons t ts ih =>
    have ht : t ≠ bytes := fun he => h (by simp [he])
    have hts : bytes ∉ ts := fun he => h (by simp [he])
    simp [findTok, ht, ih hts]

/-- `push_token` keeps the table duplicate-free. -/
theorem pushToken_nodup (table : List (List Nat)) (bytes : List Nat)
    (h : table.Nodup) : ((pushToken table bytes).1).Nodup := by
  cases hf : findTok bytes table with
  | some i => simpa [pushToken, hf] using h
  | none =>
    have hmem : bytes ∉ table := (findTok_none_iff bytes table).mp hf
    simp [pushToken, hf, List.nodup_append, h, hmem]

/-- Any fold of `push_token` preserves a duplicate-free table. -/
theorem foldl_pushToken_nodup (bs : List (List Nat)) (table : List (List Nat))
    (h : table.Nodup) :
    (bs.foldl (fun tb b => (pushToken tb b).1) table).Nodup := by
  induction bs generalizing table with
  | nil => simpa using h
  | cons b bs ih => exact ih _ (pushToken_nodup table b h)

/-- The interning loop of `to_bytes` preserves a duplicate-free table. -/
theorem internTokens_nodup (ts : List Token) (table : List (List Nat))
    (h : table.Nodup) : ((internTokens table ts).1).Nodup := by
  induction ts generalizing table with
  | nil => simpa [internTokens] using h
  | cons t ts ih =>
    simpa [internTokens] using ih _ (pushToken_nodup table t.to_vec h)

/-- The `i as i32` cast is the identity below `2^31`. -/
theorem i32wrap_small (n : Nat) (h : n < 2 ^ 31) : i32wrap n = n := by
  unfold i32wrap
  have h1 : ((n : Int) + 2 ^ 31) % 2 ^ 32 = (n : Int) + 2 ^ 31 :=
    Int.emod_eq_of_lt (by omega) (by omega)
  omega

/-- C10: token-table deduplication.  (a) any sequence of `push_token` calls
starting from the empty table keeps each distinct byte-sequence at most once;
(b) the returned index references exactly the pushed byte-sequence's table
slot (below the `i32` wrap bound); (c) pushing byte-identical tokens twice
returns the same index and leaves the table unchanged, so two entries using
the same token share one slot; (d) every table `to_bytes` builds is
duplicate-free. -/
theorem claim_c10_token_dedup :
    (∀ bs : List (List Nat), (bs.foldl (fun tb b => (pushToken tb b).1) []).Nodup) ∧
    (∀ (table : List (List Nat)) (b : List Nat), table.length < 2 ^ 31 →
      ((pushToken table b).1)[((pushToken table b).2).toNat]? = some b) ∧
    (∀ (table : List (List Nat)) (b : List Nat),
      pushToken (pushToken table b).1 b = pushToken table b) ∧
    (∀ m : CompatMessage, (CompatMessage.toMessage m).tokens.Nodup) := by
  refine ⟨?_, ?_, ?_, ?_⟩
  · intro bs
    exact foldl_pushToken_nodup bs [] List.nodup_nil
  · intro table b hlen
    cases hf : findTok b table with
    | some i =>
      have hget := findTok_some_get b table i hf
      have hi : i < table.length := by
        rcases List.getElem?_eq_some.mp hget with ⟨hlt, _⟩
        exact hlt
      have hw : i32wrap i = i := i32wrap_small i (by omega)
      simp [pushToken, hf, hw, hget]
    | none =>
      have hmem : b ∉ table := (findTok_none_iff b table).mp hf
      have hw : i32wrap table.length = table.length := i32wrap_small _ hlen
      simp [pushToken, hf, hw, List.getElem?_concat_length]
  · intro table b
    cases hf : findTok b table with
    | some i => simp [pushToken, hf]
    | none =>
      have hmem : b ∉ table := (findTok_none_iff b table).mp hf
      simp [pushToken, hf, findTok_append_self b table hmem]
  · intro m
    cases m with
    | Request r => simpa [CompatMessage.toMessage] using internTokens_nodup r.tokens [] List.nodup_nil
    | Response cid res tokens =>
      cases res <;>
        simpa [CompatMessage.toMessage] using internTokens_nodup tokens [] List.nodup_nil

/-- Witness for C10's bounded part at a one-element table. -/
theorem claim_c10_witness :
    ([[1]] : List (List Nat)).length < 2 ^ 31 ∧
    ((pushToken [[1]] [2]).1)[((pushToken [[1]] [2]).2).toNat]? = some [2] ∧
    ((pushToken [[1]] [1]).1)[((pushToken [[1]] [1]).2).toNat]? = some [1] :=
  ⟨by decide, claim_c10_token_dedup.2.1 [[1]] [2] (by decide),
    claim_c10_token_dedup.2.1 [[1]] [1] (by decide)⟩
